import Mathlib

/-!
Verification of the xrexpr repository: a lazy-evaluation / query-optimization
layer over labeled multi-dimensional datasets.  The development shallowly
embeds the two rewrite engines of the repository:

* the runtime Chain Optimizer `LazyDatasetProxy._optimize_ops` together with
  the recording proxy and the replay loop of `LazyDatasetProxy.compute`
  (src/xrexpr/accessor.py), and
* the static Expression Rewriter `SelectionPushdown` (src/xrexpr/cst.py).

Python values appearing in recorded operations are embedded by the `Value`
type; Python dicts are embedded as ordered association lists with Python's
`dict.update` semantics.  The backing dataset (xarray) is an external
collaborator of the repository and is modelled from the spec where replay
semantics are needed.
-/

/-- Embedding of the Python values that can appear as arguments of recorded
operations: strings, ints, `None`, slices, lists, and string-keyed dicts.
A dict is an ordered association list, mirroring Python's insertion-ordered
dicts. -/
inductive Value where
  | str (s : String)
  | int (n : Int)
  | pynone
  | slice (start stop : Int)
  | list (elems : List Value)
  | dict (entries : List (String × Value))

/-- A recorded operation `(method_name, args, kwargs)`, embedding the
`Op = tuple[str, tuple, dict]` alias of accessor.py.  Keyword arguments are
an ordered association list with distinct keys (a Python dict). -/
abbrev Op : Type := String × List Value × List (String × Value)

/-- `d[k] = v` on a Python dict: if `k` is already a key its value is
replaced in place, otherwise the pair is appended at the end. -/
def dictSet (d : List (String × Value)) (k : String) (v : Value) :
    List (String × Value) :=
  if d.any (fun p => p.1 = k) then
    d.map (fun p => if p.1 = k then (k, v) else p)
  else
    d ++ [(k, v)]

/-- Python's `d.update(e)`: fold the entries of `e` into `d` left to right,
later entries overwriting earlier ones on key conflict. -/
def dictUpdate (d e : List (String × Value)) : List (String × Value) :=
  e.foldl (fun acc p => dictSet acc p.1 p.2) d

/-- Python's `kwargs["dim"]`-style lookup on an association list. -/
def lookupVal (d : List (String × Value)) (k : String) : Option Value :=
  (d.find? (fun p => p.1 = k)).map (fun p => p.2)

/-- `decode_isel_args` from `_optimize_ops`: a single positional dict argument
is merged with the keyword arguments (keyword wins), otherwise the keyword
arguments alone form the indexer. -/
def decodeIselArgs (a : List Value) (kw : List (String × Value)) :
    List (String × Value) :=
  match a with
  | [Value.dict d] => dictUpdate d kw
  | _ => kw

/-- `decode_sel_args` from `_optimize_ops`; the source defines it separately
with the same body as `decode_isel_args`. -/
def decodeSelArgs (a : List Value) (kw : List (String × Value)) :
    List (String × Value) :=
  match a with
  | [Value.dict d] => dictUpdate d kw
  | _ => kw

/-- The inner `while` loop of the isel/sel merge in `_optimize_ops`: starting
from the already-accumulated indexer `merged`, consume the run of consecutive
operations named `kind`, folding each member's decoded indexer into `merged`,
and return the merged indexer together with the unconsumed remainder. -/
def mergeRun (kind : String)
    (decode : List Value → List (String × Value) → List (String × Value)) :
    List (String × Value) → List Op → List (String × Value) × List Op
  | merged, [] => (merged, [])
  | merged, (n, a, k) :: rest =>
    if n = kind then mergeRun kind decode (dictUpdate merged (decode a k)) rest
    else (merged, (n, a, k) :: rest)

theorem mergeRun_length (kind : String) (decode : List Value →
    List (String × Value) → List (String × Value))
    (merged : List (String × Value)) (l : List Op) :
    (mergeRun kind decode merged l).2.length ≤ l.length := by
  induction l generalizing merged with
  | nil => simp [mergeRun]
  | cons hd tl ih =>
    obtain ⟨n, a, k⟩ := hd
    by_cases h : n = kind
    · simpa [mergeRun, h] using (ih _).trans (Nat.le_succ _)
    · simp [mergeRun, h]

/-- Normalization of a reduction's `dim` specifier in the pushdown branch of
`_optimize_ops`: the `dim` keyword if present, else the first positional
argument; `None` becomes the empty tuple, a string a one-element tuple, and
any other value is iterated (`tuple(red_dims)`, which for a dict yields its
keys; Python would raise `TypeError` for a non-iterable, a case no claim
reaches and that contributes no axis names here). -/
def normRedDims (rargs : List Value) (rkwargs : List (String × Value)) :
    List String :=
  let rd : Option Value :=
    match lookupVal rkwargs "dim" with
    | some v => some v
    | none => rargs.head?
  match rd with
  | none => []
  | some (Value.str s) => [s]
  | some Value.pynone => []
  | some (Value.list vs) =>
    vs.filterMap (fun v => match v with | Value.str s => some s | _ => none)
  | some (Value.dict d) => d.map (fun p => p.1)
  | some _ => []

/-- The indexer computed in the pushdown branch of `_optimize_ops`:
`dict(isel_args[0])` when a single positional dict is present — note that the
keyword arguments are dropped in that case — else the keyword arguments. -/
def pushIndexer (ia : List Value) (ik : List (String × Value)) :
    List (String × Value) :=
  match ia with
  | [Value.dict d] => d
  | _ => ik

/-- The Chain Optimizer `LazyDatasetProxy._optimize_ops`: a single
left-to-right pass that merges consecutive `isel` (resp. `sel`) operations
into one with Python-dict union of their indexers, and that swaps a
`mean`/`sum`/`prod` reduction with an immediately following `isel` whose
indexer axes are disjoint from the reduction's dims. -/
def optimizeOps : List Op → List Op
  | [] => []
  | (name, args, kwargs) :: rest =>
    if name = "isel" then
      ("isel",
        [Value.dict
          (mergeRun "isel" decodeIselArgs
            (dictUpdate [] (decodeIselArgs args kwargs)) rest).1], []) ::
      optimizeOps
        (mergeRun "isel" decodeIselArgs
          (dictUpdate [] (decodeIselArgs args kwargs)) rest).2
    else if name = "sel" then
      ("sel",
        [Value.dict
          (mergeRun "sel" decodeSelArgs
            (dictUpdate [] (decodeSelArgs args kwargs)) rest).1], []) ::
      optimizeOps
        (mergeRun "sel" decodeSelArgs
          (dictUpdate [] (decodeSelArgs args kwargs)) rest).2
    else
      match rest with
      | [] => [(name, args, kwargs)]
      | (nextName, iselArgs, iselKwargs) :: rest2 =>
        if (name = "mean" ∨ name = "sum" ∨ name = "prod") ∧
            nextName = "isel" then
          if ((pushIndexer iselArgs iselKwargs).map (fun p => p.1)).all
              (fun d => !((normRedDims args kwargs).contains d)) then
            ("isel", [Value.dict (pushIndexer iselArgs iselKwargs)], []) ::
            (name, args, kwargs) :: optimizeOps rest2
          else
            (name, args, kwargs) ::
            optimizeOps ((nextName, iselArgs, iselKwargs) :: rest2)
        else
          (name, args, kwargs) ::
          optimizeOps ((nextName, iselArgs, iselKwargs) :: rest2)
termination_by l => l.length
decreasing_by
  all_goals first
    | exact Nat.lt_succ_of_le (mergeRun_length _ _ _ _)
    | (simp only [List.length_cons]; omega)

/-- The aggregation registry `AGGREGATIONS` of operations.py (a Python set;
embedded as the list of its members, membership being what matters). -/
def AGGREGATIONS : List String :=
  ["reduce", "count", "all", "any", "max", "min", "mean", "prod", "sum",
   "std", "var", "median", "cumsum", "cumprod"]

/-- The selection registry `SELECTIONS` of operations.py. -/
def SELECTIONS : List String := ["sel", "isel"]

/-- Modelled from the spec: the labeled multi-dimensional dataset of the
external backing library (out of scope of the repository, specified at its
interface in spec §3/§6).  `dims` is the ordered list of axis names, `size`
the extent of each axis, `coord` the label-to-index lookup used by
label-based selection, and `val` the value at an index assignment. -/
structure DSet where
  dims : List String
  size : String → Nat
  coord : String → Value → Option Nat
  val : (String → Nat) → ℚ

/-- Modelled from the spec: index-based selection of one axis.  The axis must
exist and the index be in range, otherwise the dataset raises (`none`); a
scalar index drops the axis and fixes the index in the data. -/
def DSet.iselAxis (ds : DSet) (d : String) (k : Nat) : Option DSet :=
  if d ∈ ds.dims ∧ k < ds.size d then
    some { dims := ds.dims.erase d, size := ds.size, coord := ds.coord,
           val := fun f => ds.val (Function.update f d k) }
  else none

/-- Modelled from the spec: index-based selection with a full indexer mapping,
applied axis by axis; only scalar integer selector values are modelled (the
only kind any claim replays). -/
def DSet.iselMany (ds : DSet) (ind : List (String × Value)) : Option DSet :=
  ind.foldlM
    (fun acc p =>
      match p.2 with
      | Value.int n => if 0 ≤ n then acc.iselAxis p.1 n.toNat else none
      | _ => none)
    ds

/-- Modelled from the spec: label-based selection of one axis via the
dataset's coordinate lookup; an unknown label raises (`none`). -/
def DSet.selAxis (ds : DSet) (d : String) (label : Value) : Option DSet :=
  (ds.coord d label).bind (fun k => ds.iselAxis d k)

/-- Modelled from the spec: label-based selection with a full indexer. -/
def DSet.selMany (ds : DSet) (ind : List (String × Value)) : Option DSet :=
  ind.foldlM (fun acc p => acc.selAxis p.1 p.2) ds

/-- Modelled from the spec: a single-axis aggregation of the backing dataset.
The axis is removed; `sum` and `prod` fold the values along it, `mean`
divides the sum by the axis extent. -/
def DSet.reduce1 (ds : DSet) (agg : String) (d : String) : Option DSet :=
  if d ∈ ds.dims then
    some { dims := ds.dims.erase d, size := ds.size, coord := ds.coord,
           val := fun f =>
             match agg with
             | "sum" => ∑ j ∈ Finset.range (ds.size d),
                 ds.val (Function.update f d j)
             | "prod" => ∏ j ∈ Finset.range (ds.size d),
                 ds.val (Function.update f d j)
             | _ => (∑ j ∈ Finset.range (ds.size d),
                 ds.val (Function.update f d j)) / (ds.size d : ℚ) }
  else none

/-- Modelled from the spec: the axes a reduction method of the backing
dataset removes, per the §6 contract — a `dim` keyword or first positional
axis specifier; a single name normalizes to a one-element list, an absent or
`None` specifier means all axes, and an invalid specifier raises. -/
def replayRedDims (ds : DSet) (args : List Value)
    (kwargs : List (String × Value)) : Option (List String) :=
  match
    (match lookupVal kwargs "dim" with
     | some v => some v
     | none => args.head?) with
  | none => some ds.dims
  | some Value.pynone => some ds.dims
  | some (Value.str s) => some [s]
  | some (Value.list vs) =>
    vs.mapM (fun v => match v with | Value.str s => some s | _ => none)
  | some _ => none

/-- Modelled from the spec: named-method dispatch of the backing dataset for
the operations any claim replays (`isel`, `sel`, and the three aggregations
the Chain Optimizer reorders).  Selection indexers follow the spec's data
model: a single positional mapping merged with keywords, keyword winning.
Any other method is an unmodelled external call (`none`); no claim replays
one. -/
def dispatchOp (ds : DSet) (m : String) (a : List Value)
    (k : List (String × Value)) : Option DSet :=
  if m = "isel" then ds.iselMany (decodeIselArgs a k)
  else if m = "sel" then ds.selMany (decodeSelArgs a k)
  else if m = "mean" ∨ m = "sum" ∨ m = "prod" then
    (replayRedDims ds a k).bind
      (fun dl => dl.foldlM (fun acc d => acc.reduce1 m d) ds)
  else none

/-- The replay loop of `LazyDatasetProxy.compute`: `__getitem__` is an
external item lookup (not modelled; no claim replays one), `__call__` is
skipped as a no-op, and every other operation is dispatched to the dataset
by name with its recorded arguments. -/
def replayChain (ds : DSet) : List Op → Option DSet
  | [] => some ds
  | (m, a, k) :: rest =>
    if m = "__getitem__" then none
    else if m = "__call__" then replayChain ds rest
    else (dispatchOp ds m a k).bind (fun ds2 => replayChain ds2 rest)

/-- The recording proxy of accessor.py: a base dataset reference and the
recorded chain of operations. -/
structure LazyDatasetProxy where
  base : DSet
  ops : List Op

/-- `LazyDatasetProxy._record`: a new proxy over the same base with one more
operation appended. -/
def LazyDatasetProxy.record (p : LazyDatasetProxy) (methodName : String)
    (args : List Value) (kwargs : List (String × Value)) : LazyDatasetProxy :=
  { base := p.base, ops := p.ops ++ [(methodName, args, kwargs)] }

/-- `LazyDatasetProxy.__getitem__`: records an item-get operation. -/
def LazyDatasetProxy.getitem (p : LazyDatasetProxy) (key : Value) :
    LazyDatasetProxy :=
  p.record "__getitem__" [key] []

/-- `LazyDatasetProxy.__call__`: records a no-op call operation. -/
def LazyDatasetProxy.callProxy (p : LazyDatasetProxy) (args : List Value)
    (kwargs : List (String × Value)) : LazyDatasetProxy :=
  p.record "__call__" args kwargs

/-- `LazyDatasetProxy.compute`: optimize the recorded chain, then replay it
against the base dataset. -/
def LazyDatasetProxy.compute (p : LazyDatasetProxy) : Option DSet :=
  replayChain p.base (optimizeOps p.ops)

/-- The three possible outcomes of `LazyDatasetProxy.__getattr__`: an
immediate `AttributeError`, a bound method wrapper that would record the call
when invoked, or eager evaluation of the chain followed by attribute access
on the realized dataset. -/
inductive AttrOutcome where
  | attrError (name : String)
  | boundMethod (name : String)
  | eagerAttr (name : String)
  deriving DecidableEq

/-- Python's `name.startswith("_")`, embedded as a test on the string's
first character. -/
def underscoreFirst (s : String) : Bool :=
  match s.data with
  | '_' :: _ => true
  | _ => false

/-- `LazyDatasetProxy.__getattr__`: names starting with an underscore raise
`AttributeError` at once; otherwise a name that is callable on the live base
dataset (probed by `_is_method_callable_on_dataset`, abstracted here as the
parameter `callableOnBase`) yields a recording wrapper, and any other name
eagerly computes the chain.  (Python only invokes `__getattr__` for names
normal lookup does not find, so actual internal attributes never reach it.) -/
def LazyDatasetProxy.getattrOutcome (p : LazyDatasetProxy)
    (callableOnBase : String → Bool) (name : String) : AttrOutcome :=
  if underscoreFirst name then AttrOutcome.attrError name
  else if callableOnBase name then AttrOutcome.boundMethod name
  else AttrOutcome.eagerAttr name

/-- Embedding of the literal argument values that appear in the parsed
expression tree handled by cst.py: a string literal (stored unquoted — the
source strips the quote characters when extracting it), an integer literal,
and a `slice(start, stop)` call.  A slice node has no literal text, so
extracting `.value` from it raises `AttributeError` in the source. -/
inductive CVal where
  | simpleString (s : String)
  | integer (n : Int)
  | sliceCall (start stop : Int)

/-- One call argument of the parsed tree: an optional keyword and a value,
embedding `libcst.Arg`. -/
structure CArg where
  keyword : Option String
  value : CVal

/-- The parsed expression trees the rewriter transforms: the base dataset
name, or a method call `subject.method(args)` (a `Call` whose `func` is an
`Attribute` of the subject).  Argument values are literal, which covers
every expression of the claims. -/
inductive Expr where
  | base
  | call (subject : Expr) (method : String) (args : List CArg)

/-- The literal text of an argument value, as `key.value.value` extracts it
in `_check_valid_ordering` (with quotes stripped); `none` models the
`AttributeError` raised on a node without literal text. -/
def literalDim : CVal → Option String
  | CVal.simpleString s => some s
  | CVal.integer n => some (toString n)
  | CVal.sliceCall _ _ => none

/-- Outcome of `SelectionPushdown._check_valid_ordering`: return normally,
raise `InvalidExpressionError` carrying the selection's axis names, or crash
extracting a literal. -/
inductive CheckOutcome where
  | ok
  | invalid (dims : List String)
  | attrCrash
  deriving DecidableEq

/-- `SelectionPushdown._check_valid_ordering`: collect the literal texts of
all the reduction call's argument values and the keyword names of the
selection call's arguments; if the two sets intersect the expression is
invalid and the error names the selection's axes. -/
def checkValidOrdering (meanArgs selArgs : List CArg) : CheckOutcome :=
  match meanArgs.mapM (fun arg => literalDim arg.value) with
  | none => CheckOutcome.attrCrash
  | some meanDims =>
    let selDims := selArgs.filterMap (fun arg => arg.keyword)
    if meanDims.any (fun d => selDims.contains d) then
      CheckOutcome.invalid selDims
    else
      CheckOutcome.ok

/-- The errors the rewrite pass can raise: the structured invalid-expression
error of cst.py, or the `AttributeError` escaping from
`_check_valid_ordering` on a non-literal reduction argument. -/
inductive RwError where
  | invalidExpression (dims : List String)
  | attributeError

/-- The guard of the `match` in `SelectionPushdown.leave_Call`:
`selector in ["isel", "sel"]`. -/
def isSelector (s : String) : Bool := s = "isel" || s = "sel"

/-- Whether an expression matches the pattern of
`SelectionPushdown.leave_Call`: a call whose subject is itself a `mean` call
and whose own method is a selector. -/
def matchesPattern : Expr → Bool
  | Expr.call (Expr.call _ "mean" _) selector _ => isSelector selector
  | _ => false

/-- The transformer `SelectionPushdown` as a big-step judgment.
`RwStep true e r` states that the full bottom-up traversal (`e.visit(self)`)
of `e` produces `r`; `RwStep false e r` states that `leave_Call`, invoked on
`e` with its children already rewritten, produces `r`.  The constructors
mirror the source: a full visit rewrites the subject first and then runs
`leave_Call` at the node (errors propagating), and `leave_Call` either does
not match the pattern and returns the node unchanged, or matches, consults
`_check_valid_ordering` (raising on conflict or crash), and on success
revisits the swapped node in full. -/
inductive RwStep : Bool → Expr → Except RwError Expr → Prop where
  | visitBase : RwStep true Expr.base (Except.ok Expr.base)
  | visitErr {subject : Expr} {method : String} {args : List CArg}
      {err : RwError} :
      RwStep true subject (Except.error err) →
      RwStep true (Expr.call subject method args) (Except.error err)
  | visitOk {subject subject2 : Expr} {method : String} {args : List CArg}
      {r : Except RwError Expr} :
      RwStep true subject (Except.ok subject2) →
      RwStep false (Expr.call subject2 method args) r →
      RwStep true (Expr.call subject method args) r
  | leaveNoMatch {e : Expr} :
      matchesPattern e = false →
      RwStep false e (Except.ok e)
  | leaveConflict {b : Expr} {meanArgs : List CArg} {selector : String}
      {selArgs : List CArg} {dims : List String} :
      isSelector selector = true →
      checkValidOrdering meanArgs selArgs = CheckOutcome.invalid dims →
      RwStep false (Expr.call (Expr.call b "mean" meanArgs) selector selArgs)
        (Except.error (RwError.invalidExpression dims))
  | leaveCrash {b : Expr} {meanArgs : List CArg} {selector : String}
      {selArgs : List CArg} :
      isSelector selector = true →
      checkValidOrdering meanArgs selArgs = CheckOutcome.attrCrash →
      RwStep false (Expr.call (Expr.call b "mean" meanArgs) selector selArgs)
        (Except.error RwError.attributeError)
  | leaveSwap {b : Expr} {meanArgs : List CArg} {selector : String}
      {selArgs : List CArg} {r : Except RwError Expr} :
      isSelector selector = true →
      checkValidOrdering meanArgs selArgs = CheckOutcome.ok →
      RwStep true (Expr.call (Expr.call b selector selArgs) "mean" meanArgs)
        r →
      RwStep false (Expr.call (Expr.call b "mean" meanArgs) selector selArgs)
        r

/-- The Expression Rewriter relation: rewriting `e` yields `r`. -/
def Rewrites (e : Expr) (r : Except RwError Expr) : Prop := RwStep true e r

theorem rwStep_det {t : Bool} {e : Expr} {r1 : Except RwError Expr}
    (h1 : RwStep t e r1) :
    ∀ r2 : Except RwError Expr, RwStep t e r2 → r1 = r2 := by
  induction h1 with
  | visitBase =>
    intro r2 h2
    cases h2 with
    | visitBase => rfl
  | visitErr h ih =>
    intro r2 h2
    cases h2 with
    | visitErr h2e => exact ih _ h2e
    | visitOk h2s h2l => exact absurd (ih _ h2s) (by simp)
  | visitOk h1s h1l ih1 ih2 =>
    intro r2 h2
    cases h2 with
    | visitErr h2e => exact absurd (ih1 _ h2e) (by simp)
    | visitOk h2s h2l =>
      have heq := ih1 _ h2s
      rw [Except.ok.injEq] at heq
      subst heq
      exact ih2 _ h2l
  | leaveNoMatch h =>
    intro r2 h2
    cases h2 with
    | leaveNoMatch h2m => rfl
    | leaveConflict hsel hchk =>
      rw [matchesPattern, hsel] at h
      exact absurd h (by simp)
    | leaveCrash hsel hchk =>
      rw [matchesPattern, hsel] at h
      exact absurd h (by simp)
    | leaveSwap hsel hchk hrec =>
      rw [matchesPattern, hsel] at h
      exact absurd h (by simp)
  | leaveConflict hsel hchk =>
    intro r2 h2
    cases h2 with
    | leaveNoMatch h2m =>
      rw [matchesPattern, hsel] at h2m
      exact absurd h2m (by simp)
    | leaveConflict h2sel h2chk =>
      rw [hchk] at h2chk
      rw [CheckOutcome.invalid.injEq] at h2chk
      rw [h2chk]
    | leaveCrash h2sel h2chk => rw [hchk] at h2chk; exact absurd h2chk (by simp)
    | leaveSwap h2sel h2chk h2rec => rw [hchk] at h2chk; exact absurd h2chk (by simp)
  | leaveCrash hsel hchk =>
    intro r2 h2
    cases h2 with
    | leaveNoMatch h2m =>
      rw [matchesPattern, hsel] at h2m
      exact absurd h2m (by simp)
    | leaveConflict h2sel h2chk => rw [hchk] at h2chk; exact absurd h2chk (by simp)
    | leaveCrash h2sel h2chk => rfl
    | leaveSwap h2sel h2chk h2rec => rw [hchk] at h2chk; exact absurd h2chk (by simp)
  | leaveSwap hsel hchk hrec ih =>
    intro r2 h2
    cases h2 with
    | leaveNoMatch h2m =>
      rw [matchesPattern, hsel] at h2m
      exact absurd h2m (by simp)
    | leaveConflict h2sel h2chk => rw [hchk] at h2chk; exact absurd h2chk (by simp)
    | leaveCrash h2sel h2chk => rw [hchk] at h2chk; exact absurd h2chk (by simp)
    | leaveSwap h2sel h2chk h2rec => exact ih _ h2rec

/-- A run of the rewriter pins down its result: every rewrite of `e` yields
`r0` exactly when some rewrite does. -/
theorem rewrites_iff_of_run {e : Expr} {r0 : Except RwError Expr}
    (h : Rewrites e r0) :
    ∀ r : Except RwError Expr, Rewrites e r ↔ r = r0 :=
  fun r =>
    ⟨fun h2 => rwStep_det h2 r0 h, fun he => he ▸ h⟩

/-- A recorded `mean(dim=d)` call. -/
def meanOp (d : String) : Op := ("mean", [], [("dim", Value.str d)])

/-- A recorded `isel(axis=k)` call in keyword form, as `_record` stores it. -/
def iselKwOp (axis : String) (k : Int) : Op :=
  ("isel", [], [(axis, Value.int k)])

/-- A recorded `isel({...})` call in single-positional-dict form, the shape
the optimizer itself emits. -/
def iselDictOp (ind : List (String × Value)) : Op :=
  ("isel", [Value.dict ind], [])

/-- The README chain `mean(dim="lat") -> mean(dim="lon") -> isel(time=0)` as
recorded by the proxy. -/
def slowOps : List Op := [meanOp "lat", meanOp "lon", iselKwOp "time" 0]

/-- The chain `isel(time=0) -> mean(dim="lat") -> mean(dim="lon")` as
recorded by the proxy (selection in keyword form). -/
def hoistedOpsRecorded : List Op := [iselKwOp "time" 0, meanOp "lat", meanOp "lon"]

/-- The same already-optimal chain with the selection in the canonical
single-positional-dict form the optimizer emits. -/
def hoistedOpsCanonical : List Op :=
  [iselDictOp [("time", Value.int 0)], meanOp "lat", meanOp "lon"]

/-- A keyword argument `dim="d"` of a parsed reduction call. -/
def dimArg (d : String) : CArg :=
  { keyword := some "dim", value := CVal.simpleString d }

/-- A keyword argument `axis=k` of a parsed selection call. -/
def keyIntArg (axis : String) (k : Int) : CArg :=
  { keyword := some axis, value := CVal.integer k }

/-- The pairwise guard of the pushdown branch, as a predicate on a whole
chain: no `mean`/`sum`/`prod` operation is immediately followed by an `isel`
operation, so the swap branch of `_optimize_ops` can never fire. -/
def noPush : List Op → Bool
  | a :: b :: rest =>
    (!((a.1 == "mean" || a.1 == "sum" || a.1 == "prod") && b.1 == "isel")) &&
    noPush (b :: rest)
  | _ => true

/-- C9: every chain-style operation on the proxy — a recorded method call,
indexing, or calling the proxy itself — returns a new proxy over the same
base dataset whose chain is the old chain with exactly the corresponding
single operation appended, and `compute` only reads the recorded chain
(optimizing a copy and replaying it), leaving the proxy's own fields as they
were.  (Freedom from mutation holds by construction in this embedding:
every proxy operation is a pure function of the old proxy.) -/
theorem C9_proxy_append (p : LazyDatasetProxy) (n : String) (a : List Value)
    (k : List (String × Value)) (key : Value) :
    ((p.record n a k).base = p.base ∧
      (p.record n a k).ops = p.ops ++ [(n, a, k)] ∧
      (p.record n a k).ops.length = p.ops.length + 1) ∧
    ((p.getitem key).base = p.base ∧
      (p.getitem key).ops = p.ops ++ [("__getitem__", [key], [])]) ∧
    ((p.callProxy a k).base = p.base ∧
      (p.callProxy a k).ops = p.ops ++ [("__call__", a, k)]) ∧
    p.compute = replayChain p.base (optimizeOps p.ops) := by
  refine ⟨⟨rfl, rfl, ?_⟩, ⟨rfl, rfl⟩, ⟨rfl, rfl⟩, rfl⟩
  simp [LazyDatasetProxy.record]

/-- C10: attribute access for any name starting with an underscore raises
`AttributeError` immediately, whatever the callability probe on the backing
dataset would answer; in particular no operation is recorded and the chain
is not evaluated (the outcome is the `attrError` branch, not the
`boundMethod` or `eagerAttr` one). -/
theorem C10_underscore_attr (p : LazyDatasetProxy) (cb : String → Bool)
    (name : String) (h : underscoreFirst name = true) :
    p.getattrOutcome cb name = AttrOutcome.attrError name := by
  simp [LazyDatasetProxy.getattrOutcome, h]

theorem C10_underscore_attr_witness :
    (underscoreFirst "_private" = true) ∧
    (LazyDatasetProxy.mk
        ⟨["time"], fun _ => 1, fun _ _ => none, fun _ => 0⟩
        []).getattrOutcome (fun _ => true) "_private" =
      AttrOutcome.attrError "_private" :=
  ⟨rfl, C10_underscore_attr _ (fun _ => true) "_private" rfl⟩

/-- C8 (counterexample): the already-optimal chain
`isel(time=0) -> mean(dim="lat") -> mean(dim="lon")`, as the proxy records it
(`isel` in keyword form), is not structurally fixed by the optimizer: the
selection is rewritten into single-positional-dict form, changing its args
and kwargs. -/
theorem C8_not_structurally_fixed :
    optimizeOps hoistedOpsRecorded ≠ hoistedOpsRecorded := by
  have h : optimizeOps hoistedOpsRecorded = hoistedOpsCanonical := by
    simp [optimizeOps, hoistedOpsRecorded, hoistedOpsCanonical, meanOp,
      iselKwOp, iselDictOp, mergeRun, decodeIselArgs, decodeSelArgs,
      dictUpdate, dictSet, normRedDims, pushIndexer, lookupVal]
  rw [h]
  simp [hoistedOpsCanonical, hoistedOpsRecorded, meanOp, iselKwOp, iselDictOp]

/-- C8 (amended): optimization rewrites the keyword-form selection of the
already-optimal chain into its canonical single-positional-dict form and
changes nothing else; the chain written in that canonical form is an exact
structural fixed point of the optimizer. -/
theorem C8_canonical_fixed_point :
    optimizeOps hoistedOpsRecorded = hoistedOpsCanonical ∧
    optimizeOps hoistedOpsCanonical = hoistedOpsCanonical := by
  constructor
  · simp [optimizeOps, hoistedOpsRecorded, hoistedOpsCanonical, meanOp,
      iselKwOp, iselDictOp, mergeRun, decodeIselArgs, decodeSelArgs,
      dictUpdate, dictSet, normRedDims, pushIndexer, lookupVal]
  · simp [optimizeOps, hoistedOpsCanonical, meanOp, iselDictOp, mergeRun,
      decodeIselArgs, decodeSelArgs, dictUpdate, dictSet, normRedDims,
      pushIndexer, lookupVal]

/-- The function body `ds.mean(dim="lat").mean(dim="lon").isel(time=0)` as a
parsed expression. -/
def slowExpr : Expr :=
  Expr.call
    (Expr.call (Expr.call Expr.base "mean" [dimArg "lat"]) "mean"
      [dimArg "lon"])
    "isel" [keyIntArg "time" 0]

/-- The fully hoisted body `ds.isel(time=0).mean(dim="lat").mean(dim="lon")`. -/
def fastExpr : Expr :=
  Expr.call
    (Expr.call (Expr.call Expr.base "isel" [keyIntArg "time" 0]) "mean"
      [dimArg "lat"])
    "mean" [dimArg "lon"]

theorem rewrites_slowExpr : Rewrites slowExpr (Except.ok fastExpr) := by
  apply @RwStep.visitOk _ (Expr.call (Expr.call Expr.base "mean" [dimArg "lat"]) "mean"
      [dimArg "lon"]) _ _ _
  · apply @RwStep.visitOk _ (Expr.call Expr.base "mean" [dimArg "lat"]) _ _ _
    · apply @RwStep.visitOk _ (Expr.base) _ _ _
      · exact RwStep.visitBase
      · exact RwStep.leaveNoMatch (by rfl)
    · exact RwStep.leaveNoMatch (by rfl)
  · apply RwStep.leaveSwap (by rfl) (by rfl)
    apply @RwStep.visitOk _ (Expr.call (Expr.call Expr.base "isel" [keyIntArg "time" 0]) "mean"
        [dimArg "lat"]) _ _ _
    · apply @RwStep.visitOk _ (Expr.call Expr.base "mean" [dimArg "lat"]) _ _ _
      · apply @RwStep.visitOk _ (Expr.base) _ _ _
        · exact RwStep.visitBase
        · exact RwStep.leaveNoMatch (by rfl)
      · apply RwStep.leaveSwap (by rfl) (by rfl)
        apply @RwStep.visitOk _ (Expr.call Expr.base "isel" [keyIntArg "time" 0]) _ _ _
        · apply @RwStep.visitOk _ (Expr.base) _ _ _
          · exact RwStep.visitBase
          · exact RwStep.leaveNoMatch (by rfl)
        · exact RwStep.leaveNoMatch (by rfl)
    · exact RwStep.leaveNoMatch (by rfl)

/-- C2 (counterexample): on the chain
`mean(dim="lat") -> mean(dim="lon") -> isel(time=0)` the Chain Optimizer does
not produce the fully hoisted form: it performs the single adjacent swap and
stops, leaving the first reduction ahead of the selection, so the optimized
operation names read `mean, isel, mean` and not `isel, mean, mean`. -/
theorem C2_optimizer_not_fully_hoisted :
    (optimizeOps slowOps).map (fun op => op.1) = ["mean", "isel", "mean"] ∧
    ["mean", "isel", "mean"] ≠ ["isel", "mean", "mean"] := by
  constructor
  · simp [optimizeOps, slowOps, meanOp, iselKwOp, mergeRun, decodeIselArgs,
      decodeSelArgs, dictUpdate, dictSet, normRedDims, pushIndexer, lookupVal]
  · simp

/-- C2 (amended): on `mean(dim="lat") -> mean(dim="lon") -> isel(time=0)`
only the Expression Rewriter produces the fully hoisted form
`isel(time=0) -> mean(dim="lat") -> mean(dim="lon")` (re-examining each swap
site recursively); the Chain Optimizer re-examines nothing and stops after
the single adjacent swap, yielding
`mean(dim="lat") -> isel(time=0) -> mean(dim="lon")`. -/
theorem C2_hoisting (r : Except RwError Expr) :
    (Rewrites slowExpr r ↔ r = Except.ok fastExpr) ∧
    optimizeOps slowOps =
      [meanOp "lat", iselDictOp [("time", Value.int 0)], meanOp "lon"] := by
  constructor
  · exact rewrites_iff_of_run rewrites_slowExpr r
  · simp [optimizeOps, slowOps, meanOp, iselKwOp, iselDictOp, mergeRun,
      decodeIselArgs, decodeSelArgs, dictUpdate, dictSet, normRedDims,
      pushIndexer, lookupVal]

theorem C2_hoisting_witness : Rewrites slowExpr (Except.ok fastExpr) :=
  (C2_hoisting (Except.ok fastExpr)).1.mpr rfl

/-- The function body
`ds.mean(dim="lat").sum(dim="level").isel(time=slice(0, 3)).mean(dim="lon")`
as a parsed expression. -/
def mixedExpr : Expr :=
  Expr.call
    (Expr.call
      (Expr.call (Expr.call Expr.base "mean" [dimArg "lat"]) "sum"
        [dimArg "level"])
      "isel" [{ keyword := some "time", value := CVal.sliceCall 0 3 }])
    "mean" [dimArg "lon"]

/-- The output the claim expects for `mixedExpr`: the time-slice selection
hoisted before both preceding reductions. -/
def mixedHoistedExpr : Expr :=
  Expr.call
    (Expr.call
      (Expr.call
        (Expr.call Expr.base "isel"
          [{ keyword := some "time", value := CVal.sliceCall 0 3 }])
        "mean" [dimArg "lat"])
      "sum" [dimArg "level"])
    "mean" [dimArg "lon"]

theorem rewrites_mixedExpr : Rewrites mixedExpr (Except.ok mixedExpr) := by
  apply @RwStep.visitOk _ (Expr.call
      (Expr.call (Expr.call Expr.base "mean" [dimArg "lat"]) "sum"
        [dimArg "level"])
      "isel" [{ keyword := some "time", value := CVal.sliceCall 0 3 }]) _ _ _
  · apply @RwStep.visitOk _ (Expr.call (Expr.call Expr.base "mean" [dimArg "lat"]) "sum"
        [dimArg "level"]) _ _ _
    · apply @RwStep.visitOk _ (Expr.call Expr.base "mean" [dimArg "lat"]) _ _ _
      · apply @RwStep.visitOk _ (Expr.base) _ _ _
        · exact RwStep.visitBase
        · exact RwStep.leaveNoMatch (by rfl)
      · exact RwStep.leaveNoMatch (by rfl)
    · exact RwStep.leaveNoMatch (by rfl)
  · exact RwStep.leaveNoMatch (by rfl)

/-- C3 (counterexample): the Expression Rewriter's pattern requires the
reduction to be literally `mean`, so on
`mean(dim="lat").sum(dim="level").isel(time=slice(0,3)).mean(dim="lon")` —
where the selection follows `sum` — nothing matches: the rewriter returns
the expression unchanged and in particular does not produce the hoisted form
the claim requires. -/
theorem C3_mixed_not_hoisted :
    Rewrites mixedExpr (Except.ok mixedExpr) ∧
    ¬ Rewrites mixedExpr (Except.ok mixedHoistedExpr) := by
  refine ⟨rewrites_mixedExpr, fun h => ?_⟩
  have heq := rwStep_det h _ rewrites_mixedExpr
  rw [Except.ok.injEq] at heq
  rw [mixedHoistedExpr, mixedExpr] at heq
  simp only [Expr.call.injEq] at heq
  exact absurd heq.1.1.1.2 (by simp)

/-- C3 (amended): the Expression Rewriter matches only call patterns whose
reduction is literally `mean` (with selector `sel` or `isel`); the chain
`mean(dim="lat").sum(dim="level").isel(time=slice(0,3)).mean(dim="lon")`
contains no such adjacent pair, so the rewriter returns it unchanged and
does not move the time-slice selection. -/
theorem C3_mixed_unchanged (r : Except RwError Expr) :
    Rewrites mixedExpr r ↔ r = Except.ok mixedExpr :=
  rewrites_iff_of_run rewrites_mixedExpr r

theorem C3_mixed_unchanged_witness : Rewrites mixedExpr (Except.ok mixedExpr) :=
  (C3_mixed_unchanged (Except.ok mixedExpr)).mpr rfl

/-- The parsed body `ds.mean(dim="lon").isel(lon=0)` — the reduction removes
the very axis the selection indexes. -/
def confMeanExpr : Expr :=
  Expr.call (Expr.call Expr.base "mean" [dimArg "lon"]) "isel"
    [keyIntArg "lon" 0]

/-- The parsed body `ds.reduce(dim="lon").isel(lon=0)` — same conflict, with
the registry reduction name `reduce` instead of `mean`. -/
def confReduceExpr : Expr :=
  Expr.call (Expr.call Expr.base "reduce" [dimArg "lon"]) "isel"
    [keyIntArg "lon" 0]

theorem rewrites_confMeanExpr :
    Rewrites confMeanExpr
      (Except.error (RwError.invalidExpression ["lon"])) := by
  apply @RwStep.visitOk _ (Expr.call Expr.base "mean" [dimArg "lon"]) _ _ _
  · apply @RwStep.visitOk _ (Expr.base) _ _ _
    · exact RwStep.visitBase
    · exact RwStep.leaveNoMatch (by rfl)
  · exact RwStep.leaveConflict (by rfl) (by rfl)

theorem rewrites_confReduceExpr :
    Rewrites confReduceExpr (Except.ok confReduceExpr) := by
  apply @RwStep.visitOk _ (Expr.call Expr.base "reduce" [dimArg "lon"]) _ _ _
  · apply @RwStep.visitOk _ (Expr.base) _ _ _
    · exact RwStep.visitBase
    · exact RwStep.leaveNoMatch (by rfl)
  · exact RwStep.leaveNoMatch (by rfl)

/-- C4 (counterexample): the claim quantifies over every registry reduction,
but for `reduce(dim="lon").isel(lon=0)` the Expression Rewriter raises
nothing: its pattern only matches the literal reduction name `mean`, so the
conflicting expression is returned unchanged rather than rejected. -/
theorem C4_reduce_conflict_not_raised :
    Rewrites confReduceExpr (Except.ok confReduceExpr) ∧
    ¬ Rewrites confReduceExpr
        (Except.error (RwError.invalidExpression ["lon"])) := by
  refine ⟨rewrites_confReduceExpr, fun h => ?_⟩
  have heq := rwStep_det h _ rewrites_confReduceExpr
  exact absurd heq (by simp)

/-- C4 (amended): only when the conflicting reduction is literally `mean`
does the Expression Rewriter raise — `mean(dim="lon").isel(lon=0)` yields the
invalid-expression error naming the selection axis `lon` — while
`reduce(dim="lon").isel(lon=0)` is returned unchanged with no error; and the
Chain Optimizer (a total function — it can raise nothing) emits any
registry reduction followed by an `isel` whose indexer axes fail its
disjointness test in their original order, merely recursing on the rest of
the chain. -/
theorem C4_conflict_behaviour :
    (∀ r : Except RwError Expr,
      Rewrites confMeanExpr r ↔
        r = Except.error (RwError.invalidExpression ["lon"])) ∧
    (∀ r : Except RwError Expr,
      Rewrites confReduceExpr r ↔ r = Except.ok confReduceExpr) ∧
    (∀ (aggName : String) (rargs : List Value) (rkw : List (String × Value))
        (ia : List Value) (ik : List (String × Value)) (rest : List Op),
      aggName ∈ AGGREGATIONS →
      ((pushIndexer ia ik).map (fun p => p.1)).all
          (fun d => !((normRedDims rargs rkw).contains d)) = false →
      optimizeOps ((aggName, rargs, rkw) :: ("isel", ia, ik) :: rest) =
        (aggName, rargs, rkw) :: optimizeOps (("isel", ia, ik) :: rest)) := by
  refine ⟨rewrites_iff_of_run rewrites_confMeanExpr,
    rewrites_iff_of_run rewrites_confReduceExpr, ?_⟩
  intro aggName rargs rkw ia ik rest hagg hover
  fin_cases hagg <;> simp [optimizeOps, hover] <;> simpa using hover

theorem C4_conflict_behaviour_witness :
    Rewrites confMeanExpr
      (Except.error (RwError.invalidExpression ["lon"])) ∧
    (("reduce", [], [("dim", Value.str "lon")]) : Op) ∈
        ([("reduce", [], [("dim", Value.str "lon")])] : List Op) ∧
    optimizeOps
        [("reduce", [], [("dim", Value.str "lon")]), iselKwOp "lon" 0] =
      ("reduce", ([] : List Value), [("dim", Value.str "lon")]) ::
        optimizeOps [iselKwOp "lon" 0] := by
  refine ⟨(C4_conflict_behaviour.1 _).mpr rfl, by simp, ?_⟩
  exact C4_conflict_behaviour.2.2 "reduce" [] [("dim", Value.str "lon")] []
    [("lon", Value.int 0)] [] (by simp [AGGREGATIONS]) (by rfl)

theorem optimizeOps_isel_cons (a : List Value) (k : List (String × Value))
    (tl : List Op) :
    optimizeOps (("isel", a, k) :: tl) =
      ("isel",
        [Value.dict
          (mergeRun "isel" decodeIselArgs
            (dictUpdate [] (decodeIselArgs a k)) tl).1], []) ::
      optimizeOps
        (mergeRun "isel" decodeIselArgs
          (dictUpdate [] (decodeIselArgs a k)) tl).2 := by
  rw [optimizeOps.eq_def]
  simp

theorem optimizeOps_sel_cons (a : List Value) (k : List (String × Value))
    (tl : List Op) :
    optimizeOps (("sel", a, k) :: tl) =
      ("sel",
        [Value.dict
          (mergeRun "sel" decodeSelArgs
            (dictUpdate [] (decodeSelArgs a k)) tl).1], []) ::
      optimizeOps
        (mergeRun "sel" decodeSelArgs
          (dictUpdate [] (decodeSelArgs a k)) tl).2 := by
  rw [optimizeOps.eq_def]
  simp

theorem optimizeOps_other_nil (name : String) (a : List Value)
    (k : List (String × Value)) (h1 : name ≠ "isel") (h2 : name ≠ "sel") :
    optimizeOps [(name, a, k)] = [(name, a, k)] := by
  rw [optimizeOps.eq_def]
  simp [h1, h2]

theorem optimizeOps_push_fires (name : String) (a : List Value)
    (k : List (String × Value)) (ia : List Value)
    (ik : List (String × Value)) (tl : List Op)
    (hmsp : name = "mean" ∨ name = "sum" ∨ name = "prod")
    (hdisj : ((pushIndexer ia ik).map (fun p => p.1)).all
      (fun d => !((normRedDims a k).contains d)) = true) :
    optimizeOps ((name, a, k) :: ("isel", ia, ik) :: tl) =
      ("isel", [Value.dict (pushIndexer ia ik)], []) ::
        (name, a, k) :: optimizeOps tl := by
  have h1 : name ≠ "isel" := by rcases hmsp with h | h | h <;> simp [h]
  have h2 : name ≠ "sel" := by rcases hmsp with h | h | h <;> simp [h]
  rw [optimizeOps.eq_def]
  simp only [h1, h2, if_false, ite_false, if_neg, hdisj]
  simp [hmsp, hdisj]

theorem optimizeOps_copy_head (name : String) (a : List Value)
    (k : List (String × Value)) (next : Op) (tl : List Op)
    (h1 : name ≠ "isel") (h2 : name ≠ "sel")
    (h3 : ¬((name = "mean" ∨ name = "sum" ∨ name = "prod") ∧
      next.1 = "isel")) :
    optimizeOps ((name, a, k) :: next :: tl) =
      (name, a, k) :: optimizeOps (next :: tl) := by
  obtain ⟨nn, na, nk⟩ := next
  rw [optimizeOps.eq_def]
  simp only at h3
  simp [h1, h2, h3]

theorem optimizeOps_conflict_head (name : String) (a : List Value)
    (k : List (String × Value)) (ia : List Value)
    (ik : List (String × Value)) (tl : List Op)
    (h1 : name ≠ "isel") (h2 : name ≠ "sel")
    (hdisj : ((pushIndexer ia ik).map (fun p => p.1)).all
      (fun d => !((normRedDims a k).contains d)) = false) :
    optimizeOps ((name, a, k) :: ("isel", ia, ik) :: tl) =
      (name, a, k) :: optimizeOps (("isel", ia, ik) :: tl) := by
  rw [optimizeOps.eq_def]
  simp only [hdisj]
  by_cases hmsp : name = "mean" ∨ name = "sum" ∨ name = "prod"
  · simp [h1, h2, hmsp]
  · simp [h1, h2, hmsp]

/-- C5 (counterexample): the pushdown branch of the Chain Optimizer only
fires for the reduction names `mean`, `sum`, `prod` and only for `isel`
selections.  With the registry reduction `max` before a disjoint `isel`, and
with `mean` before a disjoint `sel`, the optimizer leaves the reduction
first instead of emitting the selection first. -/
theorem C5_registry_not_covered :
    (optimizeOps [("max", [], [("dim", Value.str "lat")]),
        iselKwOp "time" 0]).map (fun op => op.1) = ["max", "isel"] ∧
    (optimizeOps [meanOp "lat", ("sel", [], [("time", Value.int 0)])]).map
        (fun op => op.1) = ["mean", "sel"] ∧
    ["max", "isel"] ≠ ["isel", "max"] ∧ ["mean", "sel"] ≠ ["sel", "mean"] := by
  refine ⟨?_, ?_, by simp, by simp⟩
  · simp [optimizeOps, iselKwOp, mergeRun, decodeIselArgs, decodeSelArgs,
      dictUpdate, dictSet, normRedDims, pushIndexer, lookupVal]
  · simp [optimizeOps, meanOp, mergeRun, decodeIselArgs, decodeSelArgs,
      dictUpdate, dictSet, normRedDims, pushIndexer, lookupVal]

/-- C5 (amended): when a reduction named `mean`, `sum` or `prod` is
immediately followed by an `isel` whose indexer axes (the positional mapping
if one is present, else the keyword names) all avoid the reduction's
normalized dims, the Chain Optimizer emits that selection (as a canonical
single-positional-dict `isel`) before the reduction; the eleven other
registry reductions and `sel` selections never trigger the swap. -/
theorem C5_pushdown_scope (aggName : String) (rargs : List Value)
    (rkw : List (String × Value)) (ia : List Value)
    (ik : List (String × Value)) (rest : List Op)
    (hname : aggName = "mean" ∨ aggName = "sum" ∨ aggName = "prod")
    (hdisj : ((pushIndexer ia ik).map (fun p => p.1)).all
      (fun d => !((normRedDims rargs rkw).contains d)) = true) :
    optimizeOps ((aggName, rargs, rkw) :: ("isel", ia, ik) :: rest) =
      ("isel", [Value.dict (pushIndexer ia ik)], []) ::
        (aggName, rargs, rkw) :: optimizeOps rest :=
  optimizeOps_push_fires aggName rargs rkw ia ik rest hname hdisj

theorem C5_pushdown_scope_witness :
    (("mean" : String) = "mean" ∨ ("mean" : String) = "sum" ∨
      ("mean" : String) = "prod") ∧
    ((pushIndexer [] [("time", Value.int 0)]).map (fun p => p.1)).all
      (fun d =>
        !((normRedDims [] [("dim", Value.str "lat")]).contains d)) = true ∧
    optimizeOps
        [("mean", [], [("dim", Value.str "lat")]),
         ("isel", [], [("time", Value.int 0)])] =
      ("isel", [Value.dict (pushIndexer [] [("time", Value.int 0)])], []) ::
        ("mean", ([] : List Value), [("dim", Value.str "lat")]) ::
        optimizeOps [] :=
  ⟨Or.inl rfl, rfl,
    C5_pushdown_scope "mean" [] [("dim", Value.str "lat")] []
      [("time", Value.int 0)] [] (Or.inl rfl) rfl⟩

theorem mergeRun_run_spec (kind : String)
    (dec : List Value → List (String × Value) → List (String × Value))
    (run rest : List Op) (m : List (String × Value))
    (hrun : ∀ op ∈ run, op.1 = kind)
    (hrest : ∀ q ∈ rest.head?, q.1 ≠ kind) :
    mergeRun kind dec m (run ++ rest) =
      (run.foldl (fun acc op => dictUpdate acc (dec op.2.1 op.2.2)) m,
        rest) := by
  induction run generalizing m with
  | nil =>
    cases rest with
    | nil => rfl
    | cons q rest2 =>
      obtain ⟨n, a, k⟩ := q
      have hn : n ≠ kind := hrest (n, a, k) rfl
      simp [mergeRun, hn]
  | cons op run2 ih =>
    obtain ⟨n, a, k⟩ := op
    have hn : n = kind := hrun (n, a, k) (by simp)
    have step : mergeRun kind dec m (((n, a, k) :: run2) ++ rest) =
        mergeRun kind dec (dictUpdate m (dec a k)) (run2 ++ rest) := by
      simp [mergeRun, hn]
    rw [step, ih (dictUpdate m (dec a k))
      (fun q hq => hrun q (List.mem_cons_of_mem _ hq))]
    simp

/-- C6 (counterexample): the input chain
`mean(dim="lat") -> isel(time=0) -> isel(lon=1)` contains a maximal run of
two consecutive `isel` selections, but the optimizer does not collapse it:
the pushdown branch consumes the run's first member, so the output carries
two separate `isel` operations around the reduction and no single selection
holding the union indexer `{time: 0, lon: 1}`. -/
theorem C6_run_not_merged :
    optimizeOps [meanOp "lat", iselKwOp "time" 0, iselKwOp "lon" 1] =
      [iselDictOp [("time", Value.int 0)], meanOp "lat",
        iselDictOp [("lon", Value.int 1)]] ∧
    iselDictOp [("time", Value.int 0), ("lon", Value.int 1)] ∉
      optimizeOps [meanOp "lat", iselKwOp "time" 0, iselKwOp "lon" 1] := by
  have h : optimizeOps [meanOp "lat", iselKwOp "time" 0, iselKwOp "lon" 1] =
      [iselDictOp [("time", Value.int 0)], meanOp "lat",
        iselDictOp [("lon", Value.int 1)]] := by
    simp [optimizeOps, meanOp, iselKwOp, iselDictOp, mergeRun,
      decodeIselArgs, decodeSelArgs, dictUpdate, dictSet, normRedDims,
      pushIndexer, lookupVal]
  refine ⟨h, ?_⟩
  rw [h]
  simp [iselDictOp, meanOp]

/-- C6 (amended): when the optimizer's scan reaches the first member of a
maximal run of consecutive same-kind selections (`sel` run or `isel` run,
never mixed), it collapses the run into one selection of that kind whose
indexer is the left-to-right union of the members' decoded indexers — each
member's single positional mapping merged with its keywords, keyword
winning, and later members overwriting earlier ones on key conflict.  A run
whose first member is consumed by a preceding pushdown swap (see the
counterexample) is not collapsed. -/
theorem C6_run_merge (kind : String)
    (dec : List Value → List (String × Value) → List (String × Value))
    (hkd : (kind = "isel" ∧ dec = decodeIselArgs) ∨
      (kind = "sel" ∧ dec = decodeSelArgs))
    (first : Op) (run rest : List Op)
    (hfirst : first.1 = kind) (hrun : ∀ op ∈ run, op.1 = kind)
    (hrest : ∀ q ∈ rest.head?, q.1 ≠ kind) :
    optimizeOps (first :: run ++ rest) =
      (kind,
        [Value.dict ((first :: run).foldl
          (fun acc op => dictUpdate acc (dec op.2.1 op.2.2)) [])], []) ::
      optimizeOps rest := by
  obtain ⟨n, a, k⟩ := first
  simp only at hfirst
  subst hfirst
  rcases hkd with ⟨hk, hd⟩ | ⟨hk, hd⟩ <;> subst hk <;> subst hd
  · rw [List.cons_append, optimizeOps_isel_cons,
      mergeRun_run_spec "isel" decodeIselArgs run rest _ hrun hrest]
    simp
  · rw [List.cons_append, optimizeOps_sel_cons,
      mergeRun_run_spec "sel" decodeSelArgs run rest _ hrun hrest]
    simp

theorem C6_run_merge_witness :
    ((iselKwOp "time" 0).1 = "isel") ∧
    (∀ op ∈ [iselKwOp "lat" 1], op.1 = "isel") ∧
    (∀ q ∈ ([] : List Op).head?, q.1 ≠ "isel") ∧
    optimizeOps (iselKwOp "time" 0 :: [iselKwOp "lat" 1] ++ []) =
      ("isel",
        [Value.dict ((iselKwOp "time" 0 :: [iselKwOp "lat" 1]).foldl
          (fun acc op =>
            dictUpdate acc (decodeIselArgs op.2.1 op.2.2)) [])], []) ::
      optimizeOps [] :=
  ⟨rfl, by simp [iselKwOp], by simp,
    C6_run_merge "isel" decodeIselArgs (Or.inl ⟨rfl, rfl⟩)
      (iselKwOp "time" 0) [iselKwOp "lat" 1] [] rfl
      (by simp [iselKwOp]) (by simp)⟩

/-- A tiny three-axis dataset (`time`, `lat`, `lon`, one point each) used to
replay chains concretely. -/
def dsTLL : DSet :=
  { dims := ["time", "lat", "lon"], size := fun _ => 1,
    coord := fun _ _ => none, val := fun _ => 0 }

/-- The chain `mean(dim="lat")` followed by `isel({"time": 0}, lon=0)` — a
reduction, then a selection carrying both a positional mapping and a keyword
indexer.  Its indexer axes `{time, lon}` are disjoint from the removed axis
`lat`. -/
def mixedArgsChain : List Op :=
  [meanOp "lat",
   ("isel", [Value.dict [("time", Value.int 0)]], [("lon", Value.int 0)])]

/-- C1: the pushdown is not result-preserving on every
reduction-then-disjoint-selection chain.  On `mixedArgsChain` the pushdown
branch rebuilds the selection from `dict(isel_args[0])` alone, silently
dropping the keyword indexer `lon=0`, so replaying the optimized chain
leaves the `lon` axis unselected (result dims `["lon"]`) while replaying the
original chain selects it away (result dims `[]`): the two replays differ. -/
theorem C1_pushdown_drops_kwargs :
    optimizeOps mixedArgsChain =
      [iselDictOp [("time", Value.int 0)], meanOp "lat"] ∧
    (replayChain dsTLL (optimizeOps mixedArgsChain)).map DSet.dims =
      some ["lon"] ∧
    (replayChain dsTLL mixedArgsChain).map DSet.dims = some [] ∧
    replayChain dsTLL (optimizeOps mixedArgsChain) ≠
      replayChain dsTLL mixedArgsChain := by
  have hopt : optimizeOps mixedArgsChain =
      [iselDictOp [("time", Value.int 0)], meanOp "lat"] := by
    simp [optimizeOps, mixedArgsChain, meanOp, iselDictOp, mergeRun,
      decodeIselArgs, decodeSelArgs, dictUpdate, dictSet, normRedDims,
      pushIndexer, lookupVal]
  have h1 : (replayChain dsTLL (optimizeOps mixedArgsChain)).map DSet.dims =
      some ["lon"] := by
    rw [hopt]
    rfl
  have h2 : (replayChain dsTLL mixedArgsChain).map DSet.dims = some [] := by
    rfl
  refine ⟨hopt, h1, h2, fun heq => ?_⟩
  have hd := congrArg (Option.map DSet.dims) heq
  rw [h1, h2] at hd
  simp at hd

theorem noPush_tail {a : Op} {l : List Op} (h : noPush (a :: l) = true) :
    noPush l = true := by
  cases l with
  | nil => rfl
  | cons b rest =>
    rw [noPush, Bool.and_eq_true] at h
    exact h.2

theorem noPush_pair {a b : Op} {l : List Op}
    (h : noPush (a :: b :: l) = true) :
    ((a.1 == "mean" || a.1 == "sum" || a.1 == "prod") && b.1 == "isel")
      = false := by
  rw [noPush, Bool.and_eq_true] at h
  have h1 := h.1
  cases hc : ((a.1 == "mean" || a.1 == "sum" || a.1 == "prod") &&
      b.1 == "isel") with
  | false => rfl
  | true => rw [hc] at h1; simp at h1

theorem mergeRun_noPush (kind : String)
    (dec : List Value → List (String × Value) → List (String × Value))
    (m : List (String × Value)) (l : List Op) (h : noPush l = true) :
    noPush (mergeRun kind dec m l).2 = true := by
  induction l generalizing m with
  | nil => simpa [mergeRun] using h
  | cons hd tl ih =>
    obtain ⟨n, a, k⟩ := hd
    by_cases hn : n = kind
    · simpa [mergeRun, hn] using ih _ (noPush_tail h)
    · simpa [mergeRun, hn] using h

theorem mergeRun_head_ne (kind : String)
    (dec : List Value → List (String × Value) → List (String × Value))
    (m : List (String × Value)) (l : List Op) :
    ∀ q ∈ (mergeRun kind dec m l).2.head?, q.1 ≠ kind := by
  induction l generalizing m with
  | nil => simp [mergeRun]
  | cons hd tl ih =>
    obtain ⟨n, a, k⟩ := hd
    by_cases hn : n = kind
    · simpa [mergeRun, hn] using ih _
    · intro q hq
      simp only [mergeRun, if_neg hn, Option.mem_def, List.head?_cons,
        Option.some.injEq] at hq
      rw [← hq]
      exact hn

theorem dictSet_keys (d : List (String × Value)) (k : String) (v : Value) :
    (dictSet d k v).map Prod.fst =
      if d.any (fun p => p.1 = k) then d.map Prod.fst
      else d.map Prod.fst ++ [k] := by
  unfold dictSet
  split
  · rw [List.map_map]
    apply List.map_congr_left
    intro p _
    by_cases hp : p.1 = k
    · simp [hp]
    · simp [hp]
  · simp

theorem dictSet_keys_nodup {d : List (String × Value)} (k : String)
    (v : Value) (h : (d.map Prod.fst).Nodup) :
    ((dictSet d k v).map Prod.fst).Nodup := by
  rw [dictSet_keys]
  split
  · exact h
  · next hany =>
    have hk : k ∉ d.map Prod.fst := by
      intro hmem
      obtain ⟨p, hp, hpk⟩ := List.mem_map.mp hmem
      apply hany
      rw [List.any_eq_true]
      exact ⟨p, hp, by simpa using hpk⟩
    simp [List.nodup_append, h, hk]

theorem dictUpdate_keys_nodup {d : List (String × Value)}
    (e : List (String × Value)) (h : (d.map Prod.fst).Nodup) :
    ((dictUpdate d e).map Prod.fst).Nodup := by
  induction e generalizing d with
  | nil => exact h
  | cons p e2 ih => exact ih (dictSet_keys_nodup p.1 p.2 h)

theorem mergeRun_keys_nodup (kind : String)
    (dec : List Value → List (String × Value) → List (String × Value))
    {m : List (String × Value)} (l : List Op)
    (h : (m.map Prod.fst).Nodup) :
    (((mergeRun kind dec m l).1).map Prod.fst).Nodup := by
  induction l generalizing m with
  | nil => simpa [mergeRun] using h
  | cons hd tl ih =>
    obtain ⟨n, a, k⟩ := hd
    by_cases hn : n = kind
    · simpa [mergeRun, hn] using ih (dictUpdate_keys_nodup _ h)
    · simpa [mergeRun, hn] using h

theorem dictUpdate_eq_append (d e : List (String × Value))
    (hdisj : ∀ p ∈ e, p.1 ∉ d.map Prod.fst)
    (hnd : (e.map Prod.fst).Nodup) :
    dictUpdate d e = d ++ e := by
  induction e generalizing d with
  | nil => simp [dictUpdate]
  | cons p e2 ih =>
    obtain ⟨k, v⟩ := p
    have hk : k ∉ d.map Prod.fst := hdisj (k, v) (by simp)
    have hany : d.any (fun q => q.1 = k) = false := by
      rw [List.any_eq_false]
      intro q hq
      simp only [decide_eq_true_eq]
      intro hqk
      exact hk (hqk ▸ List.mem_map_of_mem Prod.fst hq)
    have hstep : dictUpdate d ((k, v) :: e2) =
        dictUpdate (d ++ [(k, v)]) e2 := by
      simp [dictUpdate, dictSet, hany]
    have hnd2 : (e2.map Prod.fst).Nodup := by
      rw [List.map_cons, List.nodup_cons] at hnd
      exact hnd.2
    have hke2 : k ∉ e2.map Prod.fst := by
      rw [List.map_cons, List.nodup_cons] at hnd
      exact hnd.1
    have hdisj2 : ∀ q ∈ e2, q.1 ∉ (d ++ [(k, v)]).map Prod.fst := by
      intro q hq
      rw [List.map_append, List.mem_append]
      push_neg
      refine ⟨hdisj q (List.mem_cons_of_mem _ hq), ?_⟩
      simp only [List.map_cons, List.map_nil, List.mem_singleton]
      intro hqk
      exact hke2 (hqk ▸ List.mem_map_of_mem Prod.fst hq)
    rw [hstep, ih (d ++ [(k, v)]) hdisj2 hnd2, List.append_assoc]
    rfl

theorem dictUpdate_nil_left (e : List (String × Value))
    (hnd : (e.map Prod.fst).Nodup) :
    dictUpdate [] e = e := by
  simpa using dictUpdate_eq_append [] e (by simp) hnd

theorem optimizeOps_nil : optimizeOps [] = [] := by
  rw [optimizeOps.eq_def]

theorem noPush_head_prop {n : String} {a : List Value}
    {k : List (String × Value)} {next : Op} {tl : List Op}
    (h : noPush ((n, a, k) :: next :: tl) = true) :
    ¬((n = "mean" ∨ n = "sum" ∨ n = "prod") ∧ next.1 = "isel") := by
  intro hand
  obtain ⟨hm, hi⟩ := hand
  have hp := noPush_pair (a := (n, a, k)) (b := next) h
  simp only at hp
  rcases hm with hm | hm | hm <;> subst hm <;> simp [hi] at hp

theorem optimizeOps_headName (l : List Op) (h : noPush l = true) :
    (optimizeOps l).head?.map (fun op => op.1) =
      l.head?.map (fun op => op.1) := by
  cases l with
  | nil => rw [optimizeOps_nil]
  | cons hd rest =>
    obtain ⟨n, a, k⟩ := hd
    by_cases h1 : n = "isel"
    · subst h1
      rw [optimizeOps_isel_cons]
      rfl
    · by_cases h2 : n = "sel"
      · subst h2
        rw [optimizeOps_sel_cons]
        rfl
      · cases rest with
        | nil => rw [optimizeOps_other_nil n a k h1 h2]
        | cons next tl =>
          rw [optimizeOps_copy_head n a k next tl h1 h2 (noPush_head_prop h)]
          rfl

/-- An operation in pass-one output form: a selection operation carries its
indexer as a single positional dict with duplicate-free keys and no
keywords; non-selection operations are unconstrained. -/
def normalOp (op : Op) : Prop :=
  isSelector op.1 = true →
    ∃ m, op.2.1 = [Value.dict m] ∧ op.2.2 = [] ∧ (m.map Prod.fst).Nodup

/-- Adjacency shape of pass-one output: no two consecutive selections of the
same kind, and no `mean`/`sum`/`prod` immediately before an `isel`. -/
def okPair (a b : Op) : Prop :=
  ¬(isSelector a.1 = true ∧ b.1 = a.1) ∧
  ¬((a.1 = "mean" ∨ a.1 = "sum" ∨ a.1 = "prod") ∧ b.1 = "isel")

/-- The shape of optimizer output on pushdown-free chains: every selection
is in normal form and adjacent operations satisfy `okPair`. -/
def PassNormal (l : List Op) : Prop :=
  (∀ op ∈ l, normalOp op) ∧ List.Chain' okPair l

theorem optimizeOps_head_mem {l : List Op} {b : Op} (hnp : noPush l = true)
    (hb : (optimizeOps l).head? = some b) :
    ∃ q, l.head? = some q ∧ q.1 = b.1 := by
  have hh := optimizeOps_headName l hnp
  rw [hb] at hh
  cases hq : l.head? with
  | none => rw [hq] at hh; simp at hh
  | some q =>
    rw [hq] at hh
    simp only [Option.map_some'] at hh
    injection hh with hh
    exact ⟨q, rfl, hh.symm⟩

theorem optimizeOps_passNormal (l : List Op) (h : noPush l = true) :
    PassNormal (optimizeOps l) := by
  induction l using optimizeOps.induct with
  | case1 =>
    rw [optimizeOps_nil]
    exact ⟨by simp, by simp⟩
  | case2 a k rest ih =>
    rw [optimizeOps_isel_cons]
    have hrest : noPush rest = true := noPush_tail h
    have hrest2 : noPush (mergeRun "isel" decodeIselArgs
        (dictUpdate [] (decodeIselArgs a k)) rest).2 = true :=
      mergeRun_noPush _ _ _ _ hrest
    obtain ⟨hAll, hChain⟩ := ih hrest2
    refine ⟨?_, ?_⟩
    · intro op hop
      rcases List.mem_cons.mp hop with hop | hop
      · subst hop
        intro _
        exact ⟨_, rfl, rfl,
          mergeRun_keys_nodup _ _ _ (dictUpdate_keys_nodup _ (by simp))⟩
      · exact hAll op hop
    · rw [List.chain'_cons']
      refine ⟨?_, hChain⟩
      intro b hb
      rw [Option.mem_def] at hb
      obtain ⟨q, hq, hq1⟩ := optimizeOps_head_mem hrest2 hb
      have hqne : q.1 ≠ "isel" :=
        mergeRun_head_ne "isel" decodeIselArgs _ rest q (Option.mem_def.mpr hq)
      have hb1 : b.1 ≠ "isel" := fun hx => hqne (hq1.trans hx)
      exact ⟨fun hx => hb1 hx.2,
        fun hx => by rcases hx.1 with hm | hm | hm <;> exact absurd hm (by simp)⟩
  | case3 a k rest hne ih =>
    rw [optimizeOps_sel_cons]
    have hrest : noPush rest = true := noPush_tail h
    have hrest2 : noPush (mergeRun "sel" decodeSelArgs
        (dictUpdate [] (decodeSelArgs a k)) rest).2 = true :=
      mergeRun_noPush _ _ _ _ hrest
    obtain ⟨hAll, hChain⟩ := ih hrest2
    refine ⟨?_, ?_⟩
    · intro op hop
      rcases List.mem_cons.mp hop with hop | hop
      · subst hop
        intro _
        exact ⟨_, rfl, rfl,
          mergeRun_keys_nodup _ _ _ (dictUpdate_keys_nodup _ (by simp))⟩
      · exact hAll op hop
    · rw [List.chain'_cons']
      refine ⟨?_, hChain⟩
      intro b hb
      rw [Option.mem_def] at hb
      obtain ⟨q, hq, hq1⟩ := optimizeOps_head_mem hrest2 hb
      have hqne : q.1 ≠ "sel" :=
        mergeRun_head_ne "sel" decodeSelArgs _ rest q (Option.mem_def.mpr hq)
      have hb1 : b.1 ≠ "sel" := fun hx => hqne (hq1.trans hx)
      exact ⟨fun hx => hb1 hx.2,
        fun hx => by rcases hx.1 with hm | hm | hm <;> exact absurd hm (by simp)⟩
  | case4 n a k h1 h2 =>
    rw [optimizeOps_other_nil n a k h1 h2]
    refine ⟨?_, by simp⟩
    intro op hop
    rcases List.mem_cons.mp hop with hop | hop
    · subst hop
      intro hs
      rcases (by simpa [isSelector] using hs : n = "isel" ∨ n = "sel") with
        hx | hx
      · exact absurd hx h1
      · exact absurd hx h2
    · simp at hop
  | case5 n a k h1 h2 n1 a1 k1 rest2 hguard hdisj ih =>
    exact absurd ⟨hguard.1, hguard.2⟩ (noPush_head_prop h)
  | case6 n a k h1 h2 n1 a1 k1 rest2 hguard hdisj ih =>
    exact absurd ⟨hguard.1, hguard.2⟩ (noPush_head_prop h)
  | case7 n a k h1 h2 n1 a1 k1 rest2 hguard ih =>
    rw [optimizeOps_copy_head n a k (n1, a1, k1) rest2 h1 h2 hguard]
    have hrest : noPush ((n1, a1, k1) :: rest2) = true := noPush_tail h
    obtain ⟨hAll, hChain⟩ := ih hrest
    refine ⟨?_, ?_⟩
    · intro op hop
      rcases List.mem_cons.mp hop with hop | hop
      · subst hop
        intro hs
        rcases (by simpa [isSelector] using hs : n = "isel" ∨ n = "sel") with
          hx | hx
        · exact absurd hx h1
        · exact absurd hx h2
      · exact hAll op hop
    · rw [List.chain'_cons']
      refine ⟨?_, hChain⟩
      intro b hb
      rw [Option.mem_def] at hb
      obtain ⟨q, hq, hq1⟩ := optimizeOps_head_mem hrest hb
      have hqn : q = (n1, a1, k1) := by
        simp only [List.head?_cons, Option.some.injEq] at hq
        exact hq.symm
      constructor
      · intro hx
        rcases (by simpa [isSelector] using hx.1 : n = "isel" ∨ n = "sel") with
          hy | hy
        · exact absurd hy h1
        · exact absurd hy h2
      · intro hx
        apply hguard
        refine ⟨hx.1, ?_⟩
        have : b.1 = n1 := by rw [← hq1, hqn]
        rw [← this]
        exact hx.2

theorem optimizeOps_id_of_passNormal (l : List Op) (hPN : PassNormal l) :
    optimizeOps l = l := by
  induction l with
  | nil => exact optimizeOps_nil
  | cons op rest ih =>
    obtain ⟨hAll, hChain⟩ := hPN
    have hPNrest : PassNormal rest :=
      ⟨fun q hq => hAll q (List.mem_cons_of_mem _ hq),
        (List.chain'_cons'.mp hChain).2⟩
    have hHead := (List.chain'_cons'.mp hChain).1
    obtain ⟨n, a, k⟩ := op
    by_cases h1 : n = "isel"
    · subst h1
      obtain ⟨m, ha, hk, hnd⟩ :=
        hAll ("isel", a, k) (by simp) (by simp [isSelector])
      simp only at ha hk
      subst ha
      subst hk
      rw [optimizeOps_isel_cons]
      have hinit : dictUpdate [] (decodeIselArgs [Value.dict m] []) = m := by
        show dictUpdate [] (dictUpdate m []) = m
        rw [show dictUpdate m [] = m from rfl]
        exact dictUpdate_nil_left m hnd
      have hrestHead : ∀ q ∈ rest.head?, q.1 ≠ "isel" := by
        intro q hq hq1
        exact (hHead q hq).1 ⟨by simp [isSelector], hq1⟩
      have hmr : mergeRun "isel" decodeIselArgs
          (dictUpdate [] (decodeIselArgs [Value.dict m] [])) rest =
          (m, rest) := by
        rw [hinit]
        simpa using
          mergeRun_run_spec "isel" decodeIselArgs [] rest m (by simp)
            hrestHead
      rw [hmr]
      show ("isel", [Value.dict m], []) :: optimizeOps rest =
        ("isel", [Value.dict m], []) :: rest
      rw [ih hPNrest]
    · by_cases h2 : n = "sel"
      · subst h2
        obtain ⟨m, ha, hk, hnd⟩ :=
          hAll ("sel", a, k) (by simp) (by simp [isSelector])
        simp only at ha hk
        subst ha
        subst hk
        rw [optimizeOps_sel_cons]
        have hinit : dictUpdate [] (decodeSelArgs [Value.dict m] []) = m := by
          show dictUpdate [] (dictUpdate m []) = m
          rw [show dictUpdate m [] = m from rfl]
          exact dictUpdate_nil_left m hnd
        have hrestHead : ∀ q ∈ rest.head?, q.1 ≠ "sel" := by
          intro q hq hq1
          exact (hHead q hq).1 ⟨by simp [isSelector], hq1⟩
        have hmr : mergeRun "sel" decodeSelArgs
            (dictUpdate [] (decodeSelArgs [Value.dict m] [])) rest =
            (m, rest) := by
          rw [hinit]
          simpa using
            mergeRun_run_spec "sel" decodeSelArgs [] rest m (by simp)
              hrestHead
        rw [hmr]
        show ("sel", [Value.dict m], []) :: optimizeOps rest =
          ("sel", [Value.dict m], []) :: rest
        rw [ih hPNrest]
      · cases rest with
        | nil => exact optimizeOps_other_nil n a k h1 h2
        | cons next tl =>
          have hok := hHead next (by simp)
          rw [optimizeOps_copy_head n a k next tl h1 h2 hok.2, ih hPNrest]

/-- C7 (counterexample): the Chain Optimizer is not idempotent.  On
`mean(dim="lat") -> mean(dim="lon") -> isel(time=0)` one pass yields
`mean(lat), isel({time: 0}), mean(lon)`; a second pass performs a further
swap and yields `isel({time: 0}), mean(lat), mean(lon)`, so
`optimize(optimize(c)) != optimize(c)`. -/
theorem C7_not_idempotent :
    optimizeOps (optimizeOps slowOps) ≠ optimizeOps slowOps := by
  have h1 : optimizeOps slowOps =
      [meanOp "lat", iselDictOp [("time", Value.int 0)], meanOp "lon"] := by
    simp [optimizeOps, slowOps, meanOp, iselKwOp, iselDictOp, mergeRun,
      decodeIselArgs, decodeSelArgs, dictUpdate, dictSet, normRedDims,
      pushIndexer, lookupVal]
  have h2 : optimizeOps
      [meanOp "lat", iselDictOp [("time", Value.int 0)], meanOp "lon"] =
      [iselDictOp [("time", Value.int 0)], meanOp "lat", meanOp "lon"] := by
    simp [optimizeOps, meanOp, iselDictOp, mergeRun, decodeIselArgs,
      decodeSelArgs, dictUpdate, dictSet, normRedDims, pushIndexer,
      lookupVal]
  intro heq
  rw [h1, h2] at heq
  have := congrArg (fun l => l.map (fun op : Op => op.1)) heq
  simp [iselDictOp, meanOp] at this

/-- C7 (amended): the Chain Optimizer is idempotent on every chain in which
no `mean`/`sum`/`prod` operation is immediately followed by an `isel`
operation (so the pushdown branch cannot fire): there one pass already
yields merged, normal-form selections that a second pass reproduces
verbatim.  On chains where the pushdown fires, a second pass can rewrite
further (see the counterexample). -/
theorem C7_idempotent_noPush (c : List Op) (h : noPush c = true) :
    optimizeOps (optimizeOps c) = optimizeOps c :=
  optimizeOps_id_of_passNormal _ (optimizeOps_passNormal c h)

theorem C7_idempotent_noPush_witness :
    noPush hoistedOpsCanonical = true ∧
    optimizeOps (optimizeOps hoistedOpsCanonical) =
      optimizeOps hoistedOpsCanonical :=
  ⟨rfl, C7_idempotent_noPush hoistedOpsCanonical rfl⟩
